import Mathlib

/-!
Formal model of the payroll text-to-CSV scripts of this repository
(`scripts/gerar_csv.py`, `scripts/gerar_csv_1802002.py`,
`scripts/gerar_csv_11802004.py`, `scripts/unificar_csvs.py`).

Python strings are modelled as `List Char`; Python `decimal.Decimal` values
are modelled as exact rationals (`ℚ`).  The `decimal.Decimal` string
constructor is modelled on the fragment the scripts can reach: plain
fixed-point numerals with an optional leading sign (no exponents, special
values or underscores ever reach it after the scripts' cleaning steps).
-/

/-- Strings from the scripts are modelled as lists of characters. -/
abbrev Str := List Char

/-- Characters treated as whitespace by Python `str.strip` and by the regex
class `\s` on the ASCII inputs handled by the scripts. -/
def isPySpace (c : Char) : Bool :=
  c == ' ' || c == '\t' || c == '\n' || c == '\r' || c == '\x0b' || c == '\x0c'

/-- Python `s.strip()`: remove leading and trailing whitespace. -/
def pyStrip (s : Str) : Str :=
  ((s.dropWhile isPySpace).reverse.dropWhile isPySpace).reverse

/-- Numeric value of a string of decimal digits (most significant first). -/
def digitsToNat (s : Str) : Nat :=
  s.foldl (fun a c => 10 * a + (c.toNat - 48)) 0

/-- Integer-part value of a digit string, as an exact rational. -/
def decIntVal (s : Str) : ℚ := (digitsToNat s : ℚ)

/-- Fractional-part value of a digit string, as an exact rational. -/
def decFracVal (s : Str) : ℚ := (digitsToNat s : ℚ) / (10 : ℚ) ^ s.length

/-- Python `s.rfind(c)`: index of the last occurrence of `c`, `-1` if absent. -/
def pyRfind (c : Char) : Str → Int
  | [] => -1
  | a :: t =>
    let r := pyRfind c t
    if 0 ≤ r then r + 1 else if a == c then 0 else -1

/-- Sign handling of the `decimal.Decimal` string constructor: an optional
leading `+` or `-`. -/
def pySign (s : Str) : ℚ × Str :=
  match s with
  | [] => (1, [])
  | a :: t => if a == '+' then ((1 : ℚ), t) else if a == '-' then ((-1 : ℚ), t) else ((1 : ℚ), a :: t)

/-- Model of `decimal.Decimal(s)` on plain fixed-point numerals:
`[sign] digits [. digits]` with at least one digit, returning `none`
(the script-level "not a number" signal, Python `InvalidOperation`)
on anything else. -/
def pyDecimal (s : Str) : Option ℚ :=
  let p := pySign s
  let ip := p.2.takeWhile Char.isDigit
  match p.2.dropWhile Char.isDigit with
  | [] => if ip.isEmpty then none else some (p.1 * decIntVal ip)
  | '.' :: t =>
    let fp := t.takeWhile Char.isDigit
    if (t.dropWhile Char.isDigit).isEmpty then
      if ip.isEmpty && fp.isEmpty then none
      else some (p.1 * (decIntVal ip + decFracVal fp))
    else none
  | _ => none

/-- Replace every comma by a dot (Python `s.replace(",", ".")`). -/
def commaToDot (s : Str) : Str :=
  s.map (fun c => if c == ',' then '.' else c)

/-- Separator heuristic of `parse_decimal` (`gerar_csv.py` lines 31-38):
with both separators present the later one is the decimal point, with only
a comma the comma is the decimal point. -/
def sepNormalize (s : Str) : Str :=
  if s.contains ',' && s.contains '.' then
    if pyRfind ',' s > pyRfind '.' s then commaToDot (s.filter (fun c => c != '.'))
    else s.filter (fun c => c != ',')
  else if s.contains ',' then commaToDot s
  else s

/-- `parse_decimal` of `gerar_csv.py` (identical in `gerar_csv_11802004.py`):
strip, drop spaces, normalize the decimal separator, then convert with
`decimal.Decimal`, returning `none` on failure. -/
def parse_decimal (input : Str) : Option ℚ :=
  let s := (pyStrip input).filter (fun c => c != ' ')
  if s.isEmpty then none else pyDecimal (sepNormalize s)

/-- `_strip_quotes` of `gerar_csv_1802002.py`: strip, then remove one pair of
matching surrounding double or single quotes. -/
def strip_quotes (s : Str) : Str :=
  let t := pyStrip s
  if 2 ≤ t.length ∧
      ((t.head? = some '"' ∧ t.getLast? = some '"') ∨
       (t.head? = some (Char.ofNat 39) ∧ t.getLast? = some (Char.ofNat 39))) then
    (t.drop 1).dropLast
  else t

/-- Separator heuristic of `parse_valor` (`gerar_csv_1802002.py` lines 81-95).
It matches `sepNormalize` except that the only-comma branch also removes any
dots first (`s.replace(".", "")`, a no-op in that branch since no dot is
present, kept for faithfulness to the source). -/
def sepNormalizeValor (s : Str) : Str :=
  if s.contains ',' && s.contains '.' then
    if pyRfind ',' s > pyRfind '.' s then commaToDot (s.filter (fun c => c != '.'))
    else s.filter (fun c => c != ',')
  else if s.contains ',' then commaToDot (s.filter (fun c => c != '.'))
  else s

/-- Characters kept by `re.sub(r"[^0-9+\-\.]", "", s)` in `parse_valor`. -/
def keepNumChar (c : Char) : Bool :=
  c.isDigit || c == '+' || c == '-' || c == '.'

/-- `parse_valor` of `gerar_csv_1802002.py` on string input (the script also
accepts ints/floats straight from JSON; the claims concern the string path,
which is where all of the logic lives): strip, unquote, strip, drop spaces,
normalize separators, strip residual non-numeric characters, reject the
degenerate leftovers, then convert with `decimal.Decimal`. -/
def parse_valor (raw : Str) : Option ℚ :=
  let s1 := pyStrip (strip_quotes (pyStrip raw))
  if s1.isEmpty then none
  else
    let s3 := sepNormalizeValor (s1.filter (fun c => c != ' '))
    let s4 := s3.filter keepNumChar
    if s4 = [] ∨ s4 = ['.'] ∨ s4 = ['+'] ∨ s4 = ['-'] ∨ s4 = ['+', '.'] ∨ s4 = ['-', '.'] then
      none
    else pyDecimal s4

/-- Case-insensitive consumption of a literal label (the regexes use
`re.IGNORECASE`); returns the remainder of the line on success. -/
def dropCILabel (label : Str) (s : Str) : Option Str :=
  match label, s with
  | [], rest => some rest
  | _ :: _, [] => none
  | a :: ls, b :: rest => if a.toLower = b.toLower then dropCILabel ls rest else none

/-- Characters admitted inside the value group `[^"\r\n]+` of the labelled
field regexes. -/
def groupChar (c : Char) : Bool :=
  !(c == '"' || c == '\r' || c == '\n')

/-- Tail check for the `"?\s*$` suffix of the labelled field regexes: an
optional closing quote followed by whitespace to end of line. -/
def closeOk (u : Str) : Bool :=
  match u with
  | '"' :: w => w.all isPySpace
  | _ => u.all isPySpace

/-- Value extraction for `"?([^"\r\n]+)"?\s*$` starting right after the
whitespace following the colon. -/
def coreLV (r : Str) : Option Str :=
  match r with
  | [] => none
  | '"' :: t =>
    if (t.takeWhile groupChar).isEmpty then none
    else if closeOk (t.dropWhile groupChar) then some (t.takeWhile groupChar) else none
  | _ =>
    if (r.takeWhile groupChar).isEmpty then none
    else if closeOk (r.dropWhile groupChar) then some (r.takeWhile groupChar) else none

/-- Model of `re.match` for the labelled field regexes
`^\s*LABEL:\s*"?([^"\r\n]+)"?\s*$` (IGNORECASE), returning the raw captured
group.  The fallback arm reproduces the regex engine's backtracking: when
nothing valid follows the whitespace run after the colon, `\s*` gives up its
last whitespace character so the group can match it (so `label:   ` captures
a single space, while `label:` does not match at all). -/
def matchLabeled (label : Str) (line : Str) : Option Str :=
  match dropCILabel (label ++ [':']) (line.dropWhile isPySpace) with
  | none => none
  | some r0 =>
    let w := r0.takeWhile isPySpace
    let rest := r0.dropWhile isPySpace
    match coreLV rest with
    | some g => some g
    | none =>
      if w.isEmpty then none
      else
        match rest with
        | [] => w.getLast?.map (fun c => [c])
        | ['"'] => w.getLast?.map (fun c => [c])
        | _ => none

/-- Tail check for the value regexes: `"?\s*$` when the pattern carries
optional quotes (`gerar_csv.py`), plain `\s*$` otherwise
(`gerar_csv_11802004.py`). -/
def numClose (quoted : Bool) (u : Str) : Bool :=
  if quoted then closeOk u else u.all isPySpace

/-- Optional leading sign of the numeric group `[-+]?`. -/
def valorSign (s : Str) : Str × Str :=
  match s with
  | [] => ([], [])
  | a :: t => if a == '+' || a == '-' then ([a], t) else ([], a :: t)

/-- Value extraction for the numeric group `[-+]?[0-9]+(?:[.,][0-9]+)?`
followed by the closing pattern, starting right after the whitespace that
follows the colon. -/
def matchValorAfter (quoted : Bool) (r : Str) : Option Str :=
  let r1 := if quoted then (match r with | '"' :: t => t | _ => r) else r
  let p := valorSign r1
  let d1 := p.2.takeWhile Char.isDigit
  let r3 := p.2.dropWhile Char.isDigit
  if d1.isEmpty then none
  else
    match r3 with
    | [] => some (p.1 ++ d1)
    | c :: t =>
      if c == '.' || c == ',' then
        if !(t.takeWhile Char.isDigit).isEmpty && numClose quoted (t.dropWhile Char.isDigit) then
          some (p.1 ++ d1 ++ c :: t.takeWhile Char.isDigit)
        else if numClose quoted r3 then some (p.1 ++ d1) else none
      else if numClose quoted r3 then some (p.1 ++ d1) else none

/-- Model of `RE_VALOR` of `gerar_csv.py`:
`^\s*valor:\s*"?([-+]?[0-9]+(?:[.,][0-9]+)?)"?\s*$` (IGNORECASE). -/
def matchValorQ (line : Str) : Option Str :=
  match dropCILabel ("valor:".toList) (line.dropWhile isPySpace) with
  | none => none
  | some r0 => matchValorAfter true (r0.dropWhile isPySpace)

/-- Model of `RE_VALOR` of `gerar_csv_11802004.py` (same pattern without the
optional quotes around the group). -/
def matchValorNQ (line : Str) : Option Str :=
  match dropCILabel ("valor:".toList) (line.dropWhile isPySpace) with
  | none => none
  | some r0 => matchValorAfter false (r0.dropWhile isPySpace)

/-- Model of `RE_FUNCIONARIOS_ARRAY`: `^\s*funcionarios:\s*Array\b`
(IGNORECASE, prefix match). -/
def matchFuncionarios (line : Str) : Bool :=
  match dropCILabel ("funcionarios:".toList) (line.dropWhile isPySpace) with
  | none => false
  | some r0 =>
    match dropCILabel ("Array".toList) (r0.dropWhile isPySpace) with
    | none => false
    | some rest =>
      match rest with
      | [] => true
      | c :: _ => !(c.isAlphanum || c == '_')

/-- Classification of one input line by the regex dispatch of `parse_file`
(`gerar_csv.py` lines 109-190); the labels are mutually exclusive, and the
source's dispatch order is preserved. -/
inductive PLine where
  | numeroEvento (v : Str)
  | numeroOrganograma (v : Str)
  | tipoEvento (v : Str)
  | funcionarios
  | matricula (v : Str)
  | nome (v : Str)
  | cpf (v : Str)
  | valor (v : Str)
  | other
deriving DecidableEq

/-- Which regex of `parse_file` a raw line matches (source dispatch order);
`tipoEvento` and `tipoProvento` lines both map to the event-type field. -/
def classifyLine (l : Str) : PLine :=
  match matchLabeled ("numeroEvento".toList) l with
  | some v => PLine.numeroEvento v
  | none =>
  match matchLabeled ("numeroOrganograma".toList) l with
  | some v => PLine.numeroOrganograma v
  | none =>
  match matchLabeled ("tipoEvento".toList) l with
  | some v => PLine.tipoEvento v
  | none =>
  match matchLabeled ("tipoProvento".toList) l with
  | some v => PLine.tipoEvento v
  | none =>
  if matchFuncionarios l then PLine.funcionarios
  else
  match matchLabeled ("matricula".toList) l with
  | some v => PLine.matricula v
  | none =>
  match matchLabeled ("nome".toList) l with
  | some v => PLine.nome v
  | none =>
  match matchLabeled ("cpf".toList) l with
  | some v => PLine.cpf v
  | none =>
  match matchValorQ l with
  | some v => PLine.valor v
  | none => PLine.other

/-- Uppercase event-type literal `PROVENTO`. -/
def proventoStr : Str := ['P', 'R', 'O', 'V', 'E', 'N', 'T', 'O']

/-- Uppercase event-type literal `DESCONTO`. -/
def descontoStr : Str := ['D', 'E', 'S', 'C', 'O', 'N', 'T', 'O']

/-- Python `s.upper()` on the ASCII strings the scripts handle. -/
def strToUpper (s : Str) : Str := s.map Char.toUpper

/-- The `EXCLUDE_PROVENTO_EVENTS` constant of `gerar_csv.py`. -/
def EXCLUDE_PROVENTO_EVENTS : List Str :=
  ["295", "320", "340", "341", "342", "360", "590", "595", "860", "890",
   "960", "1015", "1115", "1405", "1545", "1755", "1765", "1955", "2000", "2001",
   "2003", "2004", "2006", "2008", "2009", "2012", "2013", "2014", "2015", "2016",
   "2017", "2018", "2019", "2020", "2021", "2023", "2024", "2025", "2026", "2028",
   "2034", "30109"].map String.toList

/-- The `EXCLUDE_DESCONTO_EVENTS` constant of `gerar_csv.py`. -/
def EXCLUDE_DESCONTO_EVENTS : List Str :=
  ["8340", "9005", "9015"].map String.toList

/-- Python `num in lst` for an optional string (`None in lst` is `False`). -/
def optContains (lst : List Str) (num : Option Str) : Bool :=
  match num with
  | some n => lst.contains n
  | none => false

/-- The `_allowed_event` helper of `parse_file` (`gerar_csv.py` lines
100-107), parametrised by the two exclusion lists it reads: an empty list
permits every event of that type, otherwise the event number must not be
listed; unrecognized types are never allowed. -/
def allowed_event (exP exD : List Str) (num : Option Str) (typ : Option Str) : Bool :=
  let ptype := strToUpper (typ.getD [])
  if ptype = proventoStr then exP.isEmpty || !(optContains exP num)
  else if ptype = descontoStr then exD.isEmpty || !(optContains exD num)
  else false

/-- One detail record of `parse_file`: the tuple
(matricula, nome, cpf, numeroEvento, tipoEvento, valorEvento, organograma). -/
structure Detail where
  mat : Str
  nome : Str
  cpf : Str
  numEvento : Str
  tipoEvento : Str
  valorEvento : ℚ
  organograma : Str
deriving DecidableEq

/-- Python `dict` lookup on an insertion-ordered association list with
unique keys. -/
def dictGet {α : Type} : List (Str × α) → Str → Option α
  | [], _ => none
  | p :: d, k => if p.1 = k then some p.2 else dictGet d k

/-- Python `dict` assignment: overwrite in place if the key exists, else
append at the end (insertion order). -/
def dictSet {α : Type} : List (Str × α) → Str → α → List (Str × α)
  | [], k, v => [(k, v)]
  | p :: d, k, v => if p.1 = k then (k, v) :: d else p :: dictSet d k v

/-- Python `dict.setdefault`: insert only when the key is absent. -/
def dictSetD {α : Type} : List (Str × α) → Str → α → List (Str × α)
  | [], k, v => [(k, v)]
  | p :: d, k, v => if p.1 = k then p :: d else p :: dictSetD d k v

/-- Python truthiness of an optional string (`None` and `""` are falsy). -/
def optTruthy (o : Option Str) : Bool :=
  match o with
  | some s => !s.isEmpty
  | none => false

/-- The mutable state of the `parse_file` line loop (`gerar_csv.py` lines
77-96): outputs (`totals`, `meta`, `details`), the current employee/event
context, and the pending-event buffer. -/
structure PState where
  totals : List (Str × ℚ)
  meta : List (Str × (Str × Str))
  details : List Detail
  curMat : Option Str
  curNome : Str
  curCpf : Str
  curEventType : Option Str
  curEventNumber : Option Str
  withinFunc : Bool
  curOrg : Option Str
  pendContribs : List (Str × Str × Str × ℚ)
  pendNumber : Option Str
  pendType : Option Str
  pendOrg : Option Str

/-- Initial state of `parse_file`. -/
def initState : PState :=
  ⟨[], [], [], none, [], [], none, none, false, none, [], none, none, none⟩

/-- Emission of one buffered contribution during a flush (`gerar_csv.py`
lines 118-121 / 142-145): apply the sign, add to the employee's running
total, and append one detail record. -/
def emitContrib (num ptype org : Str) (sign : ℚ) (st : PState) (c : Str × Str × Str × ℚ) :
    PState :=
  let applied := c.2.2.2 * sign
  { st with
    totals := dictSet st.totals c.1 ((dictGet st.totals c.1).getD 0 + applied),
    details := st.details ++ [⟨c.1, c.2.1, c.2.2.1, num, ptype, applied, org⟩] }

/-- Clearing of the pending-event buffer after a flush attempt
(`gerar_csv.py` lines 122-125 / 146-149). -/
def clearPending (st : PState) : PState :=
  { st with pendContribs := [], pendNumber := none, pendType := none, pendOrg := none }

/-- The flush block shared verbatim by the event-number and event-type
branches of `parse_file` (`gerar_csv.py` lines 115-125 and 139-149): emit
every buffered contribution if the pending event is not excluded, then clear
the buffer either way.  The flush precondition is checked at the call sites,
as in the source. -/
def flushPending (st : PState) : PState :=
  let ptype := st.pendType.getD []
  let sign : ℚ := if ptype = proventoStr then 1 else -1
  if allowed_event EXCLUDE_PROVENTO_EVENTS EXCLUDE_DESCONTO_EVENTS st.pendNumber st.pendType then
    clearPending
      (st.pendContribs.foldl (emitContrib (st.pendNumber.getD []) ptype (st.pendOrg.getD []) sign) st)
  else clearPending st

/-- One iteration of the `parse_file` line loop (`gerar_csv.py` lines
98-190), acting on the classified line. -/
def stepLine (st : PState) (l : PLine) : PState :=
  match l with
  | PLine.numeroEvento v =>
    let n := pyStrip v
    let st1 := { st with curEventNumber := some n, pendNumber := some n, withinFunc := false }
    if optTruthy st1.pendType && !st1.pendContribs.isEmpty then flushPending st1 else st1
  | PLine.numeroOrganograma v =>
    { st with curOrg := some (pyStrip v) }
  | PLine.tipoEvento v =>
    let t := strToUpper (pyStrip v)
    let st1 := { st with curEventType := some t, pendType := some t, withinFunc := false }
    if optTruthy st1.pendNumber && !st1.pendContribs.isEmpty then flushPending st1 else st1
  | PLine.funcionarios =>
    { st with withinFunc := true, pendContribs := [], pendNumber := none, pendType := none,
              pendOrg := st.curOrg }
  | PLine.matricula v =>
    let m := pyStrip v
    let st1 := { st with curMat := some m }
    let st2 :=
      if st1.withinFunc && !m.isEmpty then { st1 with totals := dictSetD st1.totals m 0 } else st1
    if !m.isEmpty && (!st2.curNome.isEmpty || !st2.curCpf.isEmpty) then
      { st2 with meta := dictSet st2.meta m (st2.curNome, st2.curCpf) }
    else st2
  | PLine.nome v =>
    let st1 := { st with curNome := pyStrip v }
    if optTruthy st1.curMat then
      { st1 with meta := dictSet st1.meta (st1.curMat.getD []) (st1.curNome, st1.curCpf) }
    else st1
  | PLine.cpf v =>
    let st1 := { st with curCpf := pyStrip v }
    if optTruthy st1.curMat then
      { st1 with meta := dictSet st1.meta (st1.curMat.getD []) (st1.curNome, st1.curCpf) }
    else st1
  | PLine.valor v =>
    if st.withinFunc && optTruthy st.curMat then
      match parse_decimal v with
      | some val =>
        let mat := st.curMat.getD []
        let nc := (dictGet st.meta mat).getD (st.curNome, st.curCpf)
        { st with pendContribs := st.pendContribs ++ [(mat, nc.1, nc.2, val)] }
      | none => st
    else st
  | PLine.other => st

/-- Run of the `parse_file` loop over a list of classified lines. -/
def parseLines (ls : List PLine) : PState :=
  ls.foldl stepLine initState

/-- `parse_file` of `gerar_csv.py` on the lines of an input file (each line
already `rstrip("\n")`-ed, as at line 82 of the source). -/
def parse_file (lines : List Str) : PState :=
  parseLines (lines.map classifyLine)

/-- The returned triple of `parse_file`: (totals, meta, details). -/
def outputsOf (st : PState) :
    List (Str × ℚ) × List (Str × (Str × Str)) × List Detail :=
  (st.totals, st.meta, st.details)

/-- Exact-precision sum of the signed amounts of the detail records emitted
for one employee. -/
def detailSum (ds : List Detail) (m : Str) : ℚ :=
  ((ds.filter (fun d => d.mat = m)).map Detail.valorEvento).sum

/-- Accumulated state of the fixed-block parser of `gerar_csv_11802004.py`:
per-employee totals and first-seen (nome, cpf) metadata. -/
structure FBState where
  totals : List (Str × ℚ)
  meta : List (Str × (Str × Str))
deriving DecidableEq

/-- The `while` loop of `main` in `gerar_csv_11802004.py` (lines 57-86),
recast by recursion over the remaining lines: on a matricula line the loop
breaks outright when fewer than three lines follow (`i + 3 >= len(lines)`),
consumes a valid four-line block (matricula, nome, cpf, valor) updating
totals (`setdefault`-style metadata keeps the first-seen pair), and
otherwise advances one line. -/
def fb_run : List Str → FBState → FBState
  | [], st => st
  | l :: rest, st =>
    match matchLabeled ("matricula".toList) l, rest with
    | none, r => fb_run r st
    | some _, [] => st
    | some _, [_] => st
    | some _, [_, _] => st
    | some mv, n :: c :: v :: rest2 =>
      match matchLabeled ("nome".toList) n, matchLabeled ("cpf".toList) c, matchValorNQ v with
      | some nv, some cv, some vv =>
        let mat := pyStrip mv
        let st2 :=
          match parse_decimal vv with
          | some val =>
            { totals := dictSet st.totals mat ((dictGet st.totals mat).getD 0 + val),
              meta := dictSetD st.meta mat (pyStrip nv, pyStrip cv) }
          | none => st
        fb_run rest2 st2
      | _, _, _ => fb_run (n :: c :: v :: rest2) st

/-- The fixed-block parse of a whole file, from the empty state. -/
def fb_parse (lines : List Str) : FBState :=
  fb_run lines ⟨[], []⟩

/-- Model of the merge tool's file system: a list of (path, CSV header)
pairs; the rows play no part in the header-shape and error claims. -/
def fileExistsFs (fs : List (String × List String)) (p : String) : Bool :=
  fs.any (fun e => e.1 == p)

/-- Header row of a CSV file in the modelled file system. -/
def fsHeaders (fs : List (String × List String)) (p : String) : List String :=
  ((fs.find? (fun e => e.1 == p)).map (fun e => e.2)).getD []

/-- The validation loop of `unify_csvs` (`unificar_csvs.py` lines 72-77):
walk the inputs in order, raising `FileNotFoundError` at the first missing
file, otherwise collecting each file's headers. -/
def collectInfo (fs : List (String × List String)) : List String → Except String (List (List String))
  | [] => Except.ok []
  | p :: ps =>
    if fileExistsFs fs p then
      match collectInfo fs ps with
      | Except.ok rest => Except.ok (fsHeaders fs p :: rest)
      | Except.error e => Except.error e
    else Except.error ("Arquivo não encontrado: " ++ p)

/-- The contents of the `all_headers` set in first-seen order across the
inputs.  Python's `all_headers` is a hash `set`; this list carries the same
membership, while the unspecified order in which `list(all_headers)`
enumerates it is supplied separately (see `unify_csvs`). -/
def firstSeenUnion (hss : List (List String)) : List String :=
  hss.foldl (fun acc hs => acc ++ hs.filter (fun h => !acc.contains h)) []

/-- The preferred header ordering of `unify_csvs` (line 82). -/
def preferredHeaders : List String :=
  ["matricula", "nome", "cpf", "total"]

/-- Header computation of `unify_csvs` (`unificar_csvs.py` lines 67-96): the
output file's header row, or the `FileNotFoundError` raised before anything
is written.  `enum` stands for the unspecified enumeration order of
`list(all_headers)`; a faithful run supplies some permutation of the union
(theorems quantify over it).  An `Except.error` result models the abort
before the output file is opened: no header (and no row) is produced. -/
def unify_csvs (fs : List (String × List String)) (inputs : List String)
    (addOrigin : Bool) (enum : List String → List String) : Except String (List String) :=
  match collectInfo fs inputs with
  | Except.error e => Except.error e
  | Except.ok hss =>
    let union := firstSeenUnion hss
    let ordered :=
      preferredHeaders.filter (fun h => union.contains h) ++
        (enum union).filter (fun h => !preferredHeaders.contains h)
    Except.ok (if addOrigin then ordered ++ ["organograma"] else ordered)

/-! ## Basic lemmas about the dictionary model

The rational operations of Batteries are `@[irreducible]` only as an
elaboration guard; the concrete runs below evaluate them definitionally. -/

attribute [local semireducible] Rat.mul Rat.add Rat.inv Rat.sub Rat.ofScientific

theorem foldlPres {σ β : Type} (P : σ → Prop) (f : σ → β → σ)
    (hf : ∀ s b, P s → P (f s b)) :
    ∀ (l : List β) (s : σ), P s → P (List.foldl f s l)
  | [], _, hs => hs
  | b :: l, s, hs => foldlPres P f hf l (f s b) (hf s b hs)

theorem dictGet_dictSet_self {α : Type} (d : List (Str × α)) (k : Str) (v : α) :
    dictGet (dictSet d k v) k = some v := by
  induction d with
  | nil => simp [dictSet, dictGet]
  | cons p d ih =>
    by_cases h : p.1 = k
    · simp [dictSet, dictGet, h]
    · simp [dictSet, dictGet, h, ih]

theorem dictGet_dictSet_ne {α : Type} (d : List (Str × α)) (k k' : Str) (v : α)
    (h : k' ≠ k) : dictGet (dictSet d k v) k' = dictGet d k' := by
  have h' : ¬ (k = k') := fun hh => h hh.symm
  induction d with
  | nil => simp [dictSet, dictGet, h']
  | cons p d ih =>
    by_cases hp : p.1 = k
    · simp [dictSet, dictGet, hp, h', fun hh => h' (hp ▸ hh : k = k')]
    · by_cases hp' : p.1 = k'
      · simp [dictSet, dictGet, hp, hp', h]
      · simp [dictSet, dictGet, hp, hp', ih]

theorem dictGet_dictSetD_getD {α : Type} (d : List (Str × α)) (k m : Str) (v : α) :
    (dictGet (dictSetD d k v) m).getD v = (dictGet d m).getD v := by
  induction d with
  | nil =>
    by_cases h : k = m
    · simp [dictSetD, dictGet, h]
    · simp [dictSetD, dictGet, h]
  | cons p d ih =>
    by_cases hp : p.1 = k
    · simp [dictSetD, dictGet, hp]
    · by_cases hm : p.1 = m
      · by_cases hmk : m = k
        · exact absurd (hm.trans hmk) hp
        · simp [dictSetD, dictGet, hp, hm, hmk]
      · simp [dictSetD, dictGet, hp, hm, ih]

theorem detailSum_append (a b : List Detail) (m : Str) :
    detailSum (a ++ b) m = detailSum a m + detailSum b m := by
  simp [detailSum, List.filter_append]

theorem detailSum_single (d : Detail) (m : Str) :
    detailSum [d] m = if d.mat = m then d.valorEvento else 0 := by
  by_cases h : d.mat = m <;> simp [detailSum, List.filter, h]

/-! ## Claim C2: per-employee detail sums equal the running totals -/

/-- Invariant: for every employee, the sum of emitted detail amounts equals
the stored running total (absent keys count as zero on both sides). -/
def sumsMatch (st : PState) : Prop :=
  ∀ m : Str, detailSum st.details m = (dictGet st.totals m).getD 0

theorem sumsMatch_emit (num ptype org : Str) (sign : ℚ) (st : PState)
    (c : Str × Str × Str × ℚ) (h : sumsMatch st) :
    sumsMatch (emitContrib num ptype org sign st c) := by
  intro m
  show detailSum (st.details ++ [⟨c.1, c.2.1, c.2.2.1, num, ptype, c.2.2.2 * sign, org⟩]) m =
    (dictGet (dictSet st.totals c.1 ((dictGet st.totals c.1).getD 0 + c.2.2.2 * sign)) m).getD 0
  rw [detailSum_append, detailSum_single, h m]
  by_cases hm : c.1 = m
  · subst hm
    simp [dictGet_dictSet_self]
  · rw [dictGet_dictSet_ne _ _ _ _ (fun hh => hm hh.symm)]
    simp [hm]

theorem sumsMatch_clear (st : PState) (h : sumsMatch st) : sumsMatch (clearPending st) := h

theorem sumsMatch_flush (st : PState) (h : sumsMatch st) : sumsMatch (flushPending st) := by
  unfold flushPending
  split
  · exact sumsMatch_clear _
      (foldlPres sumsMatch _ (fun s b hs => sumsMatch_emit _ _ _ _ s b hs) _ _ h)
  · exact sumsMatch_clear _ h

theorem sumsMatch_step (st : PState) (l : PLine) (h : sumsMatch st) :
    sumsMatch (stepLine st l) := by
  cases l with
  | numeroEvento v =>
    simp only [stepLine]
    split
    · exact sumsMatch_flush _ h
    · exact h
  | numeroOrganograma v => exact h
  | tipoEvento v =>
    simp only [stepLine]
    split
    · exact sumsMatch_flush _ h
    · exact h
  | funcionarios => exact h
  | matricula v =>
    intro m
    simp only [stepLine]
    split_ifs <;> simp [sumsMatch, dictGet_dictSetD_getD, h m]
  | nome v =>
    simp only [stepLine]
    split
    · exact h
    · exact h
  | cpf v =>
    simp only [stepLine]
    split
    · exact h
    · exact h
  | valor v =>
    simp only [stepLine]
    split
    · split
      · exact h
      · exact h
    · exact h
  | other => exact h

/-- C2.  For every input file and every employee identifier, the exact sum
of the signed amounts of the detail records emitted for that employee by
`parse_file` equals the value stored for that employee in the returned
totals mapping (both sides read as zero for absent employees). -/
theorem claim_C2 (file : List Str) (m : Str) :
    detailSum (parse_file file).details m = (dictGet (parse_file file).totals m).getD 0 := by
  have hinit : sumsMatch initState := by
    intro m'
    simp [initState, detailSum, dictGet]
  exact foldlPres sumsMatch stepLine sumsMatch_step (file.map classifyLine) initState hinit m

/-! ## Claim C3: excluded events never reach the output -/

/-- Invariant: every emitted detail record passes the exclusion check for
its own (event number, event type) pair. -/
def detailsOk (st : PState) : Prop :=
  ∀ d ∈ st.details,
    allowed_event EXCLUDE_PROVENTO_EVENTS EXCLUDE_DESCONTO_EVENTS
      (some d.numEvento) (some d.tipoEvento) = true

theorem allowed_none_eq_empty (typ : Option Str) :
    allowed_event EXCLUDE_PROVENTO_EVENTS EXCLUDE_DESCONTO_EVENTS (some []) typ =
    allowed_event EXCLUDE_PROVENTO_EVENTS EXCLUDE_DESCONTO_EVENTS none typ := by
  unfold allowed_event
  have h1 : optContains EXCLUDE_PROVENTO_EVENTS (some ([] : Str)) =
      optContains EXCLUDE_PROVENTO_EVENTS none := by decide
  have h2 : optContains EXCLUDE_DESCONTO_EVENTS (some ([] : Str)) =
      optContains EXCLUDE_DESCONTO_EVENTS none := by decide
  simp only [h1, h2]

theorem allowed_getD (num typ : Option Str)
    (h : allowed_event EXCLUDE_PROVENTO_EVENTS EXCLUDE_DESCONTO_EVENTS num typ = true) :
    allowed_event EXCLUDE_PROVENTO_EVENTS EXCLUDE_DESCONTO_EVENTS
      (some (num.getD [])) (some (typ.getD [])) = true := by
  cases num with
  | some n => cases typ with
    | some t => exact h
    | none =>
      rw [show allowed_event EXCLUDE_PROVENTO_EVENTS EXCLUDE_DESCONTO_EVENTS
        (some n) none = false from rfl] at h
      cases h
  | none => cases typ with
    | some t => exact (allowed_none_eq_empty (some t)).trans h
    | none =>
      rw [show allowed_event EXCLUDE_PROVENTO_EVENTS EXCLUDE_DESCONTO_EVENTS
        none none = false from rfl] at h
      cases h

theorem detailsOk_emit (num ptype org : Str) (sign : ℚ) (st : PState)
    (c : Str × Str × Str × ℚ)
    (hok : allowed_event EXCLUDE_PROVENTO_EVENTS EXCLUDE_DESCONTO_EVENTS
      (some num) (some ptype) = true)
    (h : detailsOk st) : detailsOk (emitContrib num ptype org sign st c) := by
  intro d hd
  have : d ∈ st.details ++ [⟨c.1, c.2.1, c.2.2.1, num, ptype, c.2.2.2 * sign, org⟩] := hd
  rcases List.mem_append.mp this with hold | hnew
  · exact h d hold
  · rcases List.mem_singleton.mp hnew with rfl
    exact hok

theorem detailsOk_flush (st : PState) (h : detailsOk st) : detailsOk (flushPending st) := by
  unfold flushPending
  split
  · next hall =>
    exact foldlPres detailsOk _
      (fun s b hs => detailsOk_emit _ _ _ _ s b (allowed_getD _ _ hall) hs) _ _ h
  · exact h

theorem detailsOk_step (st : PState) (l : PLine) (h : detailsOk st) :
    detailsOk (stepLine st l) := by
  cases l with
  | numeroEvento v =>
    simp only [stepLine]
    split
    · exact detailsOk_flush _ h
    · exact h
  | numeroOrganograma v => exact h
  | tipoEvento v =>
    simp only [stepLine]
    split
    · exact detailsOk_flush _ h
    · exact h
  | funcionarios => exact h
  | matricula v =>
    simp only [stepLine]
    split_ifs <;> exact h
  | nome v =>
    simp only [stepLine]
    split
    · exact h
    · exact h
  | cpf v =>
    simp only [stepLine]
    split
    · exact h
    · exact h
  | valor v =>
    simp only [stepLine]
    split
    · split
      · exact h
      · exact h
    · exact h
  | other => exact h

theorem detailsOk_parse (file : List Str) : detailsOk (parse_file file) := by
  have hinit : detailsOk initState := by
    intro d hd
    simp [initState] at hd
  exact foldlPres detailsOk stepLine detailsOk_step (file.map classifyLine) initState hinit

/-- C3.  Excluded events never reach the output: every emitted detail
record's event number is outside the exclusion list matching its type; a
number or type line that completes an excluded event leaves totals and
details unchanged; and with an empty exclusion list for a type, no event of
that type is excluded. -/
theorem claim_C3 :
    (∀ (file : List Str), ∀ d ∈ (parse_file file).details,
        (d.tipoEvento = proventoStr → d.numEvento ∉ EXCLUDE_PROVENTO_EVENTS) ∧
        (d.tipoEvento = descontoStr → d.numEvento ∉ EXCLUDE_DESCONTO_EVENTS)) ∧
    (∀ (st : PState) (v : Str),
        allowed_event EXCLUDE_PROVENTO_EVENTS EXCLUDE_DESCONTO_EVENTS
            (some (pyStrip v)) st.pendType = false →
        (stepLine st (PLine.numeroEvento v)).totals = st.totals ∧
        (stepLine st (PLine.numeroEvento v)).details = st.details) ∧
    (∀ (st : PState) (v : Str),
        allowed_event EXCLUDE_PROVENTO_EVENTS EXCLUDE_DESCONTO_EVENTS
            st.pendNumber (some (strToUpper (pyStrip v))) = false →
        (stepLine st (PLine.tipoEvento v)).totals = st.totals ∧
        (stepLine st (PLine.tipoEvento v)).details = st.details) ∧
    (∀ (exD : List Str) (num : Option Str) (t : Str), strToUpper t = proventoStr →
        allowed_event [] exD num (some t) = true) ∧
    (∀ (exP : List Str) (num : Option Str) (t : Str), strToUpper t = descontoStr →
        allowed_event exP [] num (some t) = true) := by
  refine ⟨?_, ?_, ?_, ?_, ?_⟩
  · intro file d hd
    have hall := detailsOk_parse file d hd
    constructor
    · intro ht
      rw [ht] at hall
      simp [allowed_event, (by decide : strToUpper proventoStr = proventoStr),
        (by decide : EXCLUDE_PROVENTO_EVENTS.isEmpty = false), optContains] at hall
      exact hall
    · intro ht
      rw [ht] at hall
      simp [allowed_event, (by decide : strToUpper descontoStr = descontoStr),
        (by decide : descontoStr ≠ proventoStr),
        (by decide : EXCLUDE_DESCONTO_EVENTS.isEmpty = false), optContains] at hall
      exact hall
  · intro st v h
    simp only [stepLine]
    split
    · simp [flushPending, clearPending, h]
    · exact ⟨rfl, rfl⟩
  · intro st v h
    simp only [stepLine]
    split
    · simp [flushPending, clearPending, h]
    · exact ⟨rfl, rfl⟩
  · intro exD num t ht
    simp [allowed_event, ht]
  · intro exP num t ht
    simp [allowed_event, ht, (by decide : ¬ (descontoStr = proventoStr))]

/-- Input file used to instantiate claim C3: one PROVENTO event number 10
with a single 150 contribution. -/
def c3File : List Str :=
  ["funcionarios: Array", "matricula: 100", "valor: 150", "numeroEvento: 10",
   "tipoEvento: PROVENTO"].map String.toList

/-- Witness for C3 at concrete inputs: the detail emitted for event 10 is
not excluded; completing the excluded PROVENTO event 295 changes neither
totals nor details; and empty exclusion lists exclude nothing. -/
theorem claim_C3_witness :
    (((⟨"100".toList, [], [], "10".toList, proventoStr, 150, []⟩ : Detail).tipoEvento =
          proventoStr → ("10".toList : Str) ∉ EXCLUDE_PROVENTO_EVENTS) ∧
      ((⟨"100".toList, [], [], "10".toList, proventoStr, 150, []⟩ : Detail).tipoEvento =
          descontoStr → ("10".toList : Str) ∉ EXCLUDE_DESCONTO_EVENTS)) ∧
    ((stepLine initState (PLine.numeroEvento ("295".toList))).totals = initState.totals ∧
      (stepLine initState (PLine.numeroEvento ("295".toList))).details = initState.details) ∧
    ((stepLine (stepLine initState (PLine.numeroEvento ("295".toList)))
          (PLine.tipoEvento ("PROVENTO".toList))).totals =
        (stepLine initState (PLine.numeroEvento ("295".toList))).totals ∧
      (stepLine (stepLine initState (PLine.numeroEvento ("295".toList)))
          (PLine.tipoEvento ("PROVENTO".toList))).details =
        (stepLine initState (PLine.numeroEvento ("295".toList))).details) ∧
    allowed_event [] EXCLUDE_DESCONTO_EVENTS (some ("295".toList))
        (some ("provento".toList)) = true ∧
    allowed_event EXCLUDE_PROVENTO_EVENTS [] (some ("8340".toList))
        (some ("desconto".toList)) = true := by
  refine ⟨?_, ?_, ?_, ?_, ?_⟩
  · exact claim_C3.1 c3File ⟨"100".toList, [], [], "10".toList, proventoStr, 150, []⟩
      (by decide)
  · exact claim_C3.2.1 initState ("295".toList) (by decide)
  · exact claim_C3.2.2.1 (stepLine initState (PLine.numeroEvento ("295".toList)))
      ("PROVENTO".toList) (by decide)
  · exact claim_C3.2.2.2.1 EXCLUDE_DESCONTO_EVENTS (some ("295".toList))
      ("provento".toList) (by decide)
  · exact claim_C3.2.2.2.2 EXCLUDE_PROVENTO_EVENTS (some ("8340".toList))
      ("desconto".toList) (by decide)

/-- C5.  Empty or invalid numeric tokens yield the not-a-number signal
(`none`) rather than an error, and the `parse_file` valor branch skips such
a contribution leaving the state (buffer, totals, everything) unchanged. -/
theorem claim_C5 :
    parse_decimal [] = none ∧ parse_decimal ['.'] = none ∧ parse_decimal ['-'] = none ∧
    (∀ s : Str, (∀ c ∈ s, isPySpace c = true) → parse_decimal s = none) ∧
    (∀ (st : PState) (v : Str), parse_decimal v = none → stepLine st (PLine.valor v) = st) := by
  refine ⟨by decide, by decide, by decide, ?_, ?_⟩
  · intro s hs
    have h1 : s.dropWhile isPySpace = [] := by
      rw [List.dropWhile_eq_nil_iff]
      exact fun c hc => hs c hc
    simp [parse_decimal, pyStrip, h1]
  · intro st v h
    simp only [stepLine]
    split
    · simp [h]
    · rfl

/-- Witness for C5: the lone-space and lone-dot tokens at a concrete state. -/
theorem claim_C5_witness :
    parse_decimal [' '] = none ∧ stepLine initState (PLine.valor ['.']) = initState :=
  ⟨claim_C5.2.2.2.1 [' '] (by decide), claim_C5.2.2.2.2 initState ['.'] (by decide)⟩

/-! ## Claim C1: order independence of event-number and event-type lines -/

/-- Recognizer for the two event lines whose order claim C1 swaps. -/
def isEventLine (l : PLine) : Bool :=
  match l with
  | PLine.numeroEvento _ => true
  | PLine.tipoEvento _ => true
  | _ => false

theorem stepLine_pend_nonevent (s : PState) (l : PLine) (hl : isEventLine l = false)
    (hn : s.pendNumber = none) (ht : s.pendType = none) :
    (stepLine s l).pendNumber = none ∧ (stepLine s l).pendType = none := by
  cases l with
  | numeroEvento v => exact absurd hl (by simp [isEventLine])
  | tipoEvento v => exact absurd hl (by simp [isEventLine])
  | numeroOrganograma v => exact ⟨hn, ht⟩
  | funcionarios => exact ⟨rfl, rfl⟩
  | matricula v =>
    simp only [stepLine]
    split_ifs <;> exact ⟨hn, ht⟩
  | nome v =>
    simp only [stepLine]
    split
    · exact ⟨hn, ht⟩
    · exact ⟨hn, ht⟩
  | cpf v =>
    simp only [stepLine]
    split
    · exact ⟨hn, ht⟩
    · exact ⟨hn, ht⟩
  | valor v =>
    simp only [stepLine]
    split
    · split
      · exact ⟨hn, ht⟩
      · exact ⟨hn, ht⟩
    · exact ⟨hn, ht⟩
  | other => exact ⟨hn, ht⟩

theorem foldl_pend_none (ls : List PLine) (h : ∀ l ∈ ls, isEventLine l = false) :
    ∀ s : PState, s.pendNumber = none → s.pendType = none →
      (List.foldl stepLine s ls).pendNumber = none ∧
        (List.foldl stepLine s ls).pendType = none := by
  induction ls with
  | nil => exact fun _ hn ht => ⟨hn, ht⟩
  | cons l ls ih =>
    intro s hn ht
    have hstep := stepLine_pend_nonevent s l (h l (List.mem_cons_self _ _)) hn ht
    exact ih (fun x hx => h x (List.mem_cons_of_mem _ hx)) _ hstep.1 hstep.2

theorem flush_empty_type (st : PState) (h : st.pendType = some []) :
    outputsOf (flushPending st) = outputsOf st := by
  have hall : allowed_event EXCLUDE_PROVENTO_EVENTS EXCLUDE_DESCONTO_EVENTS
      st.pendNumber (some ([] : Str)) = false := rfl
  unfold flushPending
  rw [h, hall]
  rfl

theorem swap_outputs (s : PState) (nv tv : Str)
    (hn : s.pendNumber = none) (ht : s.pendType = none) (hnv : pyStrip nv ≠ []) :
    outputsOf (stepLine (stepLine s (PLine.numeroEvento nv)) (PLine.tipoEvento tv)) =
    outputsOf (stepLine (stepLine s (PLine.tipoEvento tv)) (PLine.numeroEvento nv)) := by
  obtain ⟨tot, met, det, cm, cn, cc, cet, cen, wf, co, pc, pn, pt, po⟩ := s
  simp only at hn ht
  subst hn
  subst ht
  have hne : (pyStrip nv).isEmpty = false := by
    cases hh : pyStrip nv with
    | nil => exact absurd hh hnv
    | cons a l => rfl
  simp [stepLine, optTruthy, hne]
  by_cases hpc : pc = []
  · simp [hpc]
  · by_cases htv : strToUpper (pyStrip tv) = []
    · simp [hpc, htv]
      exact flush_empty_type _ rfl
    · simp [hpc, htv]

/-- C1 (amended).  A file made of an employees section (no event-number or
event-type lines) followed by an event-number line and an event-type line
produces the same output (totals, metadata, details) with the two event
lines in either order, provided the event-number value is nonempty after
stripping.  (The unamended claim fails when the captured event number
strips to the empty string: Python truthiness then suppresses the flush in
the number-then-type order only; see `claim_C1_counterexample`.) -/
theorem claim_C1 (pre : List Str) (lnNum lnTipo nv tv : Str)
    (hpre : ∀ l ∈ pre, isEventLine (classifyLine l) = false)
    (hn : classifyLine lnNum = PLine.numeroEvento nv)
    (ht : classifyLine lnTipo = PLine.tipoEvento tv)
    (hnv : pyStrip nv ≠ []) :
    outputsOf (parse_file (pre ++ [lnNum, lnTipo])) =
    outputsOf (parse_file (pre ++ [lnTipo, lnNum])) := by
  unfold parse_file parseLines
  rw [List.map_append, List.map_append, List.foldl_append, List.foldl_append]
  simp only [List.map_cons, List.map_nil, hn, ht, List.foldl_cons, List.foldl_nil]
  have hpend := foldl_pend_none (pre.map classifyLine)
    (fun l hl => by
      rcases List.mem_map.mp hl with ⟨x, hx, rfl⟩
      exact hpre x hx)
    initState rfl rfl
  exact swap_outputs _ nv tv hpend.1 hpend.2 hnv

/-- Witness for C1 at a concrete file: one employees section with a 150
contribution, event number 10 and type PROVENTO, in both line orders. -/
theorem claim_C1_witness :
    outputsOf (parse_file
      (["funcionarios: Array", "matricula: 100", "valor: 150", "numeroEvento: 10",
        "tipoEvento: PROVENTO"].map String.toList)) =
    outputsOf (parse_file
      (["funcionarios: Array", "matricula: 100", "valor: 150", "tipoEvento: PROVENTO",
        "numeroEvento: 10"].map String.toList)) := by
  have h := claim_C1
    (["funcionarios: Array", "matricula: 100", "valor: 150"].map String.toList)
    ("numeroEvento: 10".toList) ("tipoEvento: PROVENTO".toList)
    ("10".toList) ("PROVENTO".toList)
    (by decide) (by decide) (by decide) (by decide)
  exact h

/-- Counterexample to C1 as stated: when the event-number line captures a
blank value (`numeroEvento: " "` strips to `""`), the number-then-type
order flushes nothing while the type-then-number order emits the event, so
the two orders give different totals and details. -/
theorem claim_C1_counterexample :
    outputsOf (parse_file
      (["funcionarios: Array", "matricula: 100", "valor: 150", "numeroEvento: \" \"",
        "tipoEvento: PROVENTO"].map String.toList)) ≠
    outputsOf (parse_file
      (["funcionarios: Array", "matricula: 100", "valor: 150", "tipoEvento: PROVENTO",
        "numeroEvento: \" \""].map String.toList)) := by
  decide

/-! ## Claim C7: repeated employee identifiers -/

theorem stepMat_curMat (s : PState) (v : Str) :
    (stepLine s (PLine.matricula v)).curMat = some (pyStrip v) := by
  simp only [stepLine]
  split_ifs <;> rfl

theorem stepNome_curMat (s : PState) (v : Str) :
    (stepLine s (PLine.nome v)).curMat = s.curMat := by
  simp only [stepLine]
  split
  · rfl
  · rfl

theorem stepNome_curNome (s : PState) (v : Str) :
    (stepLine s (PLine.nome v)).curNome = pyStrip v := by
  simp only [stepLine]
  split
  · rfl
  · rfl

theorem stepCpf_meta (s : PState) (v : Str) (h : optTruthy s.curMat = true) :
    (stepLine s (PLine.cpf v)).meta =
      dictSet s.meta (s.curMat.getD []) (s.curNome, pyStrip v) := by
  simp only [stepLine]
  rw [if_pos h]

theorem six_step_meta (s : PState) (m n1 c1 n2 c2 : Str) (hm : pyStrip m ≠ []) :
    dictGet (List.foldl stepLine s
      [PLine.matricula m, PLine.nome n1, PLine.cpf c1, PLine.matricula m,
       PLine.nome n2, PLine.cpf c2]).meta (pyStrip m) = some (pyStrip n2, pyStrip c2) := by
  have hne : (pyStrip m).isEmpty = false := by
    cases hh : pyStrip m with
    | nil => exact absurd hh hm
    | cons a l => rfl
  simp only [List.foldl_cons, List.foldl_nil]
  set s3 := stepLine (stepLine (stepLine s (PLine.matricula m)) (PLine.nome n1)) (PLine.cpf c1)
  set s4 := stepLine s3 (PLine.matricula m) with hs4
  set s5 := stepLine s4 (PLine.nome n2) with hs5
  have h5mat : s5.curMat = some (pyStrip m) := by
    rw [hs5, stepNome_curMat, hs4, stepMat_curMat]
  have h5nome : s5.curNome = pyStrip n2 := by
    rw [hs5, stepNome_curNome]
  rw [stepCpf_meta s5 c2 (by rw [h5mat]; simp [optTruthy, hne]), h5mat, h5nome]
  simp [dictGet_dictSet_self]

/-- Input of the fixed-block variant with the same matricula appearing in
two valid blocks carrying different names and tax ids. -/
def c7FbFile : List Str :=
  ["matricula: 1", "nome: A", "cpf: 1", "valor: 1", "matricula: 1", "nome: B", "cpf: 2",
   "valor: 1"].map String.toList

/-- C7 (amended).  In `parse_file` (`gerar_csv.py`) the last-seen name and
tax id for a repeated identifier win: after two full
matricula/nome/cpf blocks for the same identifier, the metadata mapping
holds the second block's pair, whatever came before.  In the fixed-block
variant (`gerar_csv_11802004.py`) the metadata is stored with
`dict.setdefault`, so the first-seen pair wins instead (the unamended
last-seen claim fails there; see `claim_C7_counterexample`). -/
theorem claim_C7 :
    (∀ (pre : List Str) (lm ln1 lc1 ln2 lc2 m n1 c1 n2 c2 : Str),
        classifyLine lm = PLine.matricula m →
        classifyLine ln1 = PLine.nome n1 →
        classifyLine lc1 = PLine.cpf c1 →
        classifyLine ln2 = PLine.nome n2 →
        classifyLine lc2 = PLine.cpf c2 →
        pyStrip m ≠ [] →
        dictGet (parse_file (pre ++ [lm, ln1, lc1, lm, ln2, lc2])).meta (pyStrip m) =
          some (pyStrip n2, pyStrip c2)) ∧
    dictGet (fb_parse c7FbFile).meta ("1".toList) = some ("A".toList, "1".toList) := by
  constructor
  · intro pre lm ln1 lc1 ln2 lc2 m n1 c1 n2 c2 h1 h2 h3 h4 h5 hm
    unfold parse_file parseLines
    rw [List.map_append, List.foldl_append]
    simp only [List.map_cons, List.map_nil, h1, h2, h3, h4, h5]
    exact six_step_meta _ m n1 c1 n2 c2 hm
  · decide

/-- Witness for C7 at a concrete file: two blocks for matricula 1, first
(A, 1) then (B, 2); `parse_file` keeps the last pair. -/
theorem claim_C7_witness :
    dictGet (parse_file (["matricula: 1", "nome: A", "cpf: 1", "matricula: 1", "nome: B",
        "cpf: 2"].map String.toList)).meta ("1".toList) =
      some ("B".toList, "2".toList) := by
  have h := claim_C7.1 [] ("matricula: 1".toList) ("nome: A".toList) ("cpf: 1".toList)
    ("nome: B".toList) ("cpf: 2".toList) ("1".toList) ("A".toList) ("1".toList)
    ("B".toList) ("2".toList) (by decide) (by decide) (by decide) (by decide) (by decide)
    (by decide)
  exact h

/-- Counterexample to C7 as stated: in the fixed-block variant the
metadata recorded for matricula 1 is not the last-seen pair (B, 2) but the
first-seen one. -/
theorem claim_C7_counterexample :
    dictGet (fb_parse c7FbFile).meta ("1".toList) ≠ some ("B".toList, "2".toList) := by
  decide

/-! ## Claim C10: block discipline of the fixed-block variant -/

/-- C10.  In `gerar_csv_11802004.py`, a matricula line among the last three
lines of the file stops parsing outright (nothing more contributes); a
matricula line whose next three lines are not exactly nome, cpf and valor
lines contributes nothing (scanning resumes on the next line); a valid
four-line block contributes its parsed value to the matricula's total and
records first-seen metadata; and a non-matricula line merely advances. -/
theorem claim_C10 :
    (∀ (l : Str) (rest : List Str) (st : FBState) (mv : Str),
        matchLabeled ("matricula".toList) l = some mv → rest.length < 3 →
        fb_run (l :: rest) st = st) ∧
    (∀ (l n c v : Str) (rest2 : List Str) (st : FBState) (mv : Str),
        matchLabeled ("matricula".toList) l = some mv →
        (matchLabeled ("nome".toList) n = none ∨ matchLabeled ("cpf".toList) c = none ∨
          matchValorNQ v = none) →
        fb_run (l :: n :: c :: v :: rest2) st = fb_run (n :: c :: v :: rest2) st) ∧
    (∀ (l n c v : Str) (rest2 : List Str) (st : FBState) (mv nv cv vv : Str) (val : ℚ),
        matchLabeled ("matricula".toList) l = some mv →
        matchLabeled ("nome".toList) n = some nv →
        matchLabeled ("cpf".toList) c = some cv →
        matchValorNQ v = some vv →
        parse_decimal vv = some val →
        fb_run (l :: n :: c :: v :: rest2) st =
          fb_run rest2
            ⟨dictSet st.totals (pyStrip mv) ((dictGet st.totals (pyStrip mv)).getD 0 + val),
             dictSetD st.meta (pyStrip mv) (pyStrip nv, pyStrip cv)⟩) ∧
    (∀ (l : Str) (rest : List Str) (st : FBState),
        matchLabeled ("matricula".toList) l = none →
        fb_run (l :: rest) st = fb_run rest st) := by
  refine ⟨?_, ?_, ?_, ?_⟩
  · intro l rest st mv hm hlen
    have hm' : matchLabeled ['m', 'a', 't', 'r', 'i', 'c', 'u', 'l', 'a'] l = some mv := hm
    rcases rest with _ | ⟨a, _ | ⟨b, _ | ⟨c, r⟩⟩⟩
    · rw [fb_run.eq_def]; simp [hm']
    · rw [fb_run.eq_def]; simp [hm']
    · rw [fb_run.eq_def]; simp [hm']
    · simp at hlen
      omega
  · intro l n c v rest2 st mv hm hbad
    have hm' : matchLabeled ['m', 'a', 't', 'r', 'i', 'c', 'u', 'l', 'a'] l = some mv := hm
    rw [fb_run.eq_def]
    cases hn' : matchLabeled ['n', 'o', 'm', 'e'] n with
    | none => simp [hm', hn']
    | some nv =>
      cases hc' : matchLabeled ['c', 'p', 'f'] c with
      | none => simp [hm', hn', hc']
      | some cv =>
        cases hv' : matchValorNQ v with
        | none => simp [hm', hn', hc', hv']
        | some vv =>
          rcases hbad with h | h | h
          · exact absurd (h ▸ hn' : (none : Option Str) = some nv) (by simp)
          · exact absurd (h ▸ hc' : (none : Option Str) = some cv) (by simp)
          · exact absurd (h ▸ hv' : (none : Option Str) = some vv) (by simp)
  · intro l n c v rest2 st mv nv cv vv val hm hn hc hv hd
    have hm' : matchLabeled ['m', 'a', 't', 'r', 'i', 'c', 'u', 'l', 'a'] l = some mv := hm
    have hn' : matchLabeled ['n', 'o', 'm', 'e'] n = some nv := hn
    have hc' : matchLabeled ['c', 'p', 'f'] c = some cv := hc
    rw [fb_run.eq_def]
    simp [hm', hn', hc', hv, hd]
  · intro l rest st hm
    have hm' : matchLabeled ['m', 'a', 't', 'r', 'i', 'c', 'u', 'l', 'a'] l = none := hm
    rw [fb_run.eq_def]
    simp [hm']

/-- Witness for C10 at concrete lines: a matricula line with only one line
after it stops parsing; an invalid block skips one line; a valid block for
matricula 9 with value 1 contributes; a non-matricula line advances. -/
theorem claim_C10_witness :
    fb_run (["matricula: 9", "nome: X"].map String.toList) ⟨[], []⟩ = ⟨[], []⟩ ∧
    fb_run (["matricula: 9", "foo", "cpf: 1", "valor: 1"].map String.toList) ⟨[], []⟩ =
      fb_run (["foo", "cpf: 1", "valor: 1"].map String.toList) ⟨[], []⟩ ∧
    fb_run (["matricula: 9", "nome: X", "cpf: 1", "valor: 1"].map String.toList) ⟨[], []⟩ =
      fb_run []
        ⟨dictSet ([] : List (Str × ℚ)) (pyStrip ("9".toList))
            ((dictGet ([] : List (Str × ℚ)) (pyStrip ("9".toList))).getD 0 + 1),
         dictSetD ([] : List (Str × (Str × Str))) (pyStrip ("9".toList))
            (pyStrip ("X".toList), pyStrip ("1".toList))⟩ ∧
    fb_run (["foo", "matricula: 9"].map String.toList) ⟨[], []⟩ =
      fb_run (["matricula: 9"].map String.toList) ⟨[], []⟩ := by
  refine ⟨?_, ?_, ?_, ?_⟩
  · exact claim_C10.1 ("matricula: 9".toList) (["nome: X"].map String.toList) ⟨[], []⟩
      ("9".toList) (by decide) (by decide)
  · exact claim_C10.2.1 ("matricula: 9".toList) ("foo".toList) ("cpf: 1".toList)
      ("valor: 1".toList) [] ⟨[], []⟩ ("9".toList) (by decide) (Or.inl (by decide))
  · exact claim_C10.2.2.1 ("matricula: 9".toList) ("nome: X".toList) ("cpf: 1".toList)
      ("valor: 1".toList) [] ⟨[], []⟩ ("9".toList) ("X".toList) ("1".toList) ("1".toList) 1
      (by decide) (by decide) (by decide) (by decide) (by decide)
  · exact claim_C10.2.2.2 ("foo".toList) (["matricula: 9"].map String.toList) ⟨[], []⟩
      (by decide)

/-! ## Claims C8 and C9: the merge tool -/

theorem collect_error (fs : List (String × List String)) (inputs : List String)
    (h : ∃ p ∈ inputs, fileExistsFs fs p = false) :
    ∃ e, collectInfo fs inputs = Except.error e := by
  induction inputs with
  | nil => simp at h
  | cons p ps ih =>
    cases hfe : fileExistsFs fs p with
    | false => exact ⟨"Arquivo não encontrado: " ++ p, by simp [collectInfo, hfe]⟩
    | true =>
      rcases h with ⟨q, hq, hqm⟩
      rcases List.mem_cons.mp hq with rfl | hq'
      · exact absurd hfe (by simp [hqm])
      · obtain ⟨e, hce⟩ := ih ⟨q, hq', hqm⟩
        exact ⟨e, by simp [collectInfo, hfe, hce]⟩

/-- C8.  When at least one merge input does not exist, `unify_csvs` raises
the file-not-found error and produces no output at all (in particular the
output header row is never computed, matching the source where the
existence check precedes opening the output file). -/
theorem claim_C8 (fs : List (String × List String)) (inputs : List String)
    (addOrigin : Bool) (enum : List String → List String)
    (h : ∃ p ∈ inputs, fileExistsFs fs p = false) :
    ∃ msg, unify_csvs fs inputs addOrigin enum = Except.error msg := by
  obtain ⟨e, hce⟩ := collect_error fs inputs h
  exact ⟨e, by simp [unify_csvs, hce]⟩

/-- Witness for C8: a single missing input aborts the merge. -/
theorem claim_C8_witness :
    ∃ msg, unify_csvs [] ["x.csv"] true (fun l => l) = Except.error msg :=
  claim_C8 [] ["x.csv"] true (fun l => l) ⟨"x.csv", by simp, rfl⟩

theorem collect_ok (fs : List (String × List String)) (inputs : List String)
    (h : ∀ p ∈ inputs, fileExistsFs fs p = true) :
    collectInfo fs inputs = Except.ok (inputs.map (fsHeaders fs)) := by
  induction inputs with
  | nil => rfl
  | cons p ps ih =>
    have hp := h p (List.mem_cons_self _ _)
    have hps := ih (fun q hq => h q (List.mem_cons_of_mem _ hq))
    simp [collectInfo, hp, hps]

/-- C9 (amended).  When all inputs exist and the set enumeration is any
permutation of the header union, the merged header is: the preferred
headers present in the union, in preferred order; then the remaining
headers in the (unspecified) enumeration order, which form a permutation of
the remaining first-seen headers; then the origin column unless
suppressed.  (The unamended claim that the remaining headers follow in
first-seen order fails because `list(all_headers)` enumerates a hash set
in no guaranteed order; see `claim_C9_counterexample`.) -/
theorem claim_C9 (fs : List (String × List String)) (inputs : List String)
    (addOrigin : Bool) (enum : List String → List String)
    (hex : ∀ p ∈ inputs, fileExistsFs fs p = true)
    (hperm : List.Perm (enum (firstSeenUnion (inputs.map (fsHeaders fs))))
      (firstSeenUnion (inputs.map (fsHeaders fs)))) :
    unify_csvs fs inputs addOrigin enum =
      Except.ok
        (preferredHeaders.filter
            (fun h => (firstSeenUnion (inputs.map (fsHeaders fs))).contains h) ++
          (enum (firstSeenUnion (inputs.map (fsHeaders fs)))).filter
            (fun h => !preferredHeaders.contains h) ++
          (if addOrigin then ["organograma"] else [])) ∧
    List.Perm
      ((enum (firstSeenUnion (inputs.map (fsHeaders fs)))).filter
        (fun h => !preferredHeaders.contains h))
      ((firstSeenUnion (inputs.map (fsHeaders fs))).filter
        (fun h => !preferredHeaders.contains h)) := by
  constructor
  · rw [unify_csvs, collect_ok fs inputs hex]
    cases addOrigin <;> simp [List.append_assoc]
  · exact hperm.filter _

/-- Witness for C9: one input whose headers are (matricula, extra), with
the identity enumeration. -/
theorem claim_C9_witness :
    unify_csvs [("a.csv", ["matricula", "extra"])] ["a.csv"] true (fun l => l) =
      Except.ok
        (preferredHeaders.filter
            (fun h => (firstSeenUnion (["a.csv"].map
              (fsHeaders [("a.csv", ["matricula", "extra"])]))).contains h) ++
          (firstSeenUnion (["a.csv"].map
              (fsHeaders [("a.csv", ["matricula", "extra"])]))).filter
            (fun h => !preferredHeaders.contains h) ++
          (if true then ["organograma"] else [])) ∧
    List.Perm
      ((firstSeenUnion (["a.csv"].map (fsHeaders [("a.csv", ["matricula", "extra"])]))).filter
        (fun h => !preferredHeaders.contains h))
      ((firstSeenUnion (["a.csv"].map (fsHeaders [("a.csv", ["matricula", "extra"])]))).filter
        (fun h => !preferredHeaders.contains h)) :=
  claim_C9 [("a.csv", ["matricula", "extra"])] ["a.csv"] true (fun l => l)
    (by decide) (List.Perm.refl _)

/-- Counterexample to C9 as stated: a legitimate enumeration of the header
set `{alpha, beta}` can list `beta` first, and the merged header then
starts `beta, alpha`, not in first-seen order `alpha, beta`. -/
theorem claim_C9_counterexample :
    List.Perm ["beta", "alpha"] (firstSeenUnion [["alpha", "beta"]]) ∧
    unify_csvs [("f.csv", ["alpha", "beta"])] ["f.csv"] true (fun _ => ["beta", "alpha"]) =
      Except.ok ["beta", "alpha", "organograma"] ∧
    (["beta", "alpha", "organograma"] : List String) ≠ ["alpha", "beta", "organograma"] := by
  refine ⟨?_, by rfl, by decide⟩
  exact List.Perm.swap _ _ _

/-! ## Claims C4 and C6: the decimal normalizers on structured tokens -/

theorem digit_ne (c : Char) (h : c.isDigit = true) (d : Char) (hd : d.isDigit = false) :
    c ≠ d := by
  intro e
  rw [e, hd] at h
  cases h

theorem digit_not_space (c : Char) (h : c.isDigit = true) : isPySpace c = false := by
  cases hsp : isPySpace c with
  | false => rfl
  | true =>
    simp [isPySpace] at hsp
    rcases hsp with ((((hh | hh) | hh) | hh) | hh) | hh <;> subst hh <;>
      exact absurd h (by decide)

theorem dropWhile_eq_self_of (p : Char → Bool) (l : Str) (h : ∀ c ∈ l, p c = false) :
    l.dropWhile p = l := by
  cases l with
  | nil => rfl
  | cons a t => simp [List.dropWhile_cons, h a (List.mem_cons_self _ _)]

theorem pyStrip_eq_self (s : Str) (h : ∀ c ∈ s, isPySpace c = false) : pyStrip s = s := by
  unfold pyStrip
  rw [dropWhile_eq_self_of _ _ h,
    dropWhile_eq_self_of _ _ (fun c hc => h c (List.mem_reverse.mp hc)), List.reverse_reverse]

theorem takeWhile_eq_self_of (p : Char → Bool) (l : Str) (h : ∀ c ∈ l, p c = true) :
    l.takeWhile p = l := by
  induction l with
  | nil => rfl
  | cons a t ih =>
    simp [List.takeWhile_cons, h a (List.mem_cons_self _ _),
      ih (fun c hc => h c (List.mem_cons_of_mem _ hc))]

theorem takeWhile_append_of (p : Char → Bool) (a : Str) (ha : ∀ c ∈ a, p c = true)
    (x : Char) (hx : p x = false) (t : Str) :
    (a ++ x :: t).takeWhile p = a ∧ (a ++ x :: t).dropWhile p = x :: t := by
  induction a with
  | nil => simp [List.takeWhile_cons, List.dropWhile_cons, hx]
  | cons b bs ih =>
    have hb := ha b (List.mem_cons_self _ _)
    have ihr := ih (fun c hc => ha c (List.mem_cons_of_mem _ hc))
    simp [List.takeWhile_cons, List.dropWhile_cons, hb, ihr.1, ihr.2]

theorem contains_of_mem {l : Str} {a : Char} (h : a ∈ l) : l.contains a = true :=
  List.elem_iff.mpr h

theorem contains_of_not_mem {l : Str} {a : Char} (h : a ∉ l) : l.contains a = false := by
  cases hc : l.contains a with
  | false => rfl
  | true => exact absurd (List.elem_iff.mp hc) h

theorem pyRfind_lt_length (c : Char) (l : Str) : pyRfind c l < l.length := by
  induction l with
  | nil => simp [pyRfind]
  | cons a t ih =>
    simp only [pyRfind, List.length_cons]
    split
    · push_cast
      omega
    · split
      · push_cast
        omega
      · push_cast
        omega

theorem pyRfind_not_mem (c : Char) (l : Str) (h : c ∉ l) : pyRfind c l = -1 := by
  induction l with
  | nil => rfl
  | cons a t ih =>
    have hat : c ∉ t := fun hc => h (List.mem_cons_of_mem _ hc)
    have hac : (a == c) = false := by
      cases hb : a == c with
      | false => rfl
      | true => exact absurd (List.mem_cons_self a t) (by rw [eq_of_beq hb] at h ⊢; exact h)
    simp [pyRfind, ih hat, hac]

theorem pyRfind_last (c : Char) (u v : Str) (h : c ∉ v) :
    pyRfind c (u ++ c :: v) = (u.length : Int) := by
  induction u with
  | nil =>
    simp [pyRfind, pyRfind_not_mem c v h]
  | cons a t ih =>
    have h0 : (0 : Int) ≤ pyRfind c (t ++ c :: v) := by rw [ih]; positivity
    rw [List.cons_append]
    simp only [pyRfind]
    rw [if_pos h0, ih, List.length_cons]
    push_cast
    ring

theorem pyRfind_append_not_mem (c : Char) (u w : Str) (h : c ∉ w) :
    pyRfind c (u ++ w) = pyRfind c u := by
  induction u with
  | nil => simp [pyRfind_not_mem c w h, pyRfind]
  | cons a t ih => simp [pyRfind, ih]
theorem not_sign_char (a : Char) (ha : a.isDigit = true ∨ a = '.') :
    (a == '+') = false ∧ (a == '-') = false := by
  rcases ha with h | rfl
  · constructor <;> (rw [beq_eq_false_iff_ne]; exact digit_ne a h _ (by decide))
  · constructor <;> decide

theorem pySign_no_sign (l : Str) (h : ∀ c ∈ l, c.isDigit = true ∨ c = '.') :
    pySign l = (1, l) := by
  cases l with
  | nil => rfl
  | cons a t =>
    have ha := not_sign_char a (h a (List.mem_cons_self _ _))
    simp [pySign, ha.1, ha.2]

theorem dot_charset (a b : Str) (ha : ∀ c ∈ a, c.isDigit = true)
    (hb : ∀ c ∈ b, c.isDigit = true) :
    ∀ c ∈ a ++ '.' :: b, c.isDigit = true ∨ c = '.' := by
  intro c hc
  rcases List.mem_append.mp hc with h | h
  · exact Or.inl (ha c h)
  · rcases List.mem_cons.mp h with rfl | h
    · exact Or.inr rfl
    · exact Or.inl (hb c h)

theorem pyDecimal_digits_dot (a b : Str) (ha : ∀ c ∈ a, c.isDigit = true)
    (hb : ∀ c ∈ b, c.isDigit = true) (hbne : b ≠ []) :
    pyDecimal (a ++ '.' :: b) = some (decIntVal a + decFracVal b) := by
  have hsig := pySign_no_sign (a ++ '.' :: b) (dot_charset a b ha hb)
  have htw := takeWhile_append_of Char.isDigit a ha '.' (by decide) b
  have hfp : b.takeWhile Char.isDigit = b := takeWhile_eq_self_of _ _ hb
  have hdp : b.dropWhile Char.isDigit = [] := List.dropWhile_eq_nil_iff.mpr (fun c hc => hb c hc)
  have hbe : b.isEmpty = false := by
    cases b with
    | nil => exact absurd rfl hbne
    | cons x t => rfl
  unfold pyDecimal
  rw [hsig]
  simp only [htw.1, htw.2, hfp, hdp]
  simp [hbe]

theorem pyDecimal_digits (d : Str) (hd : ∀ c ∈ d, c.isDigit = true) (hne : d ≠ []) :
    pyDecimal d = some (decIntVal d) := by
  have hsig := pySign_no_sign d (fun c hc => Or.inl (hd c hc))
  have htw : d.takeWhile Char.isDigit = d := takeWhile_eq_self_of _ _ hd
  have hdp : d.dropWhile Char.isDigit = [] := List.dropWhile_eq_nil_iff.mpr (fun c hc => hd c hc)
  have hde : d.isEmpty = false := by
    cases d with
    | nil => exact absurd rfl hne
    | cons x t => rfl
  unfold pyDecimal
  rw [hsig]
  simp only [htw, hdp]
  simp [hde]
theorem commaToDot_id (l : Str) (h : ',' ∉ l) : commaToDot l = l := by
  induction l with
  | nil => rfl
  | cons a t ih =>
    have ha : a ≠ ',' := fun e => h (e ▸ List.mem_cons_self a t)
    have hb : (if (a == ',') = true then '.' else a) = a := by
      rw [if_neg]
      simp [ha]
    rw [commaToDot, List.map_cons, hb, ← commaToDot, ih (fun hc => h (List.mem_cons_of_mem _ hc))]

theorem comma_not_mem_digits (v : Str) (hv : ∀ c ∈ v, c.isDigit = true) : ',' ∉ v :=
  fun hc => absurd (hv ',' hc) (by decide)

theorem dot_not_mem_digits (v : Str) (hv : ∀ c ∈ v, c.isDigit = true) : '.' ∉ v :=
  fun hc => absurd (hv '.' hc) (by decide)

theorem filter_dot_eq_digit (u : Str) (hu : ∀ c ∈ u, c.isDigit = true ∨ c = '.') :
    u.filter (fun c => c != '.') = u.filter Char.isDigit :=
  List.filter_congr (fun c hc => by
    rcases hu c hc with h | rfl
    · rw [h, bne_iff_ne]
      simp [digit_ne c h '.' (by decide)]
    · decide)

theorem filter_comma_eq_digit (u : Str) (hu : ∀ c ∈ u, c.isDigit = true ∨ c = ',') :
    u.filter (fun c => c != ',') = u.filter Char.isDigit :=
  List.filter_congr (fun c hc => by
    rcases hu c hc with h | rfl
    · rw [h, bne_iff_ne]
      simp [digit_ne c h ',' (by decide)]
    · decide)

theorem sepNormalize_comma_last (u v : Str) (hu : ∀ c ∈ u, c.isDigit = true ∨ c = '.')
    (hv : ∀ c ∈ v, c.isDigit = true) :
    sepNormalize (u ++ ',' :: v) = u.filter Char.isDigit ++ '.' :: v := by
  have hcnv : ',' ∉ v := comma_not_mem_digits v hv
  have hcnu : ',' ∉ u := fun hc => by
    rcases hu ',' hc with h | h
    · exact absurd h (by decide)
    · exact absurd h (by decide)
  have hdnv : '.' ∉ ',' :: v := by
    intro hc
    rcases List.mem_cons.mp hc with h | h
    · exact absurd h (by decide)
    · exact dot_not_mem_digits v hv h
  have hcont : (u ++ ',' :: v).contains ',' = true :=
    contains_of_mem (List.mem_append_right _ (List.mem_cons_self _ _))
  have h1 : (',' :: v).filter (fun c => c != '.') = ',' :: v :=
    List.filter_eq_self.mpr (fun c hc => by
      rcases List.mem_cons.mp hc with rfl | hcv
      · decide
      · rw [bne_iff_ne]
        exact digit_ne c (hv c hcv) '.' (by decide))
  have hxnc : ',' ∉ u.filter Char.isDigit := fun hc => hcnu (List.mem_filter.mp hc).1
  by_cases hdot : '.' ∈ u
  · have hcd : (u ++ ',' :: v).contains '.' = true :=
      contains_of_mem (List.mem_append_left _ hdot)
    have hgt : pyRfind ',' (u ++ ',' :: v) > pyRfind '.' (u ++ ',' :: v) := by
      rw [pyRfind_last ',' u v hcnv, pyRfind_append_not_mem '.' u (',' :: v) hdnv]
      exact pyRfind_lt_length '.' u
    unfold sepNormalize
    rw [hcont, hcd]
    simp only [Bool.and_self, if_pos hgt, if_true]
    rw [List.filter_append, h1, filter_dot_eq_digit u hu]
    unfold commaToDot
    rw [List.map_append, List.map_cons]
    have e1 : (if (',' == ',') = true then '.' else ',') = '.' := rfl
    rw [e1, ← commaToDot, ← commaToDot, commaToDot_id _ hxnc, commaToDot_id v hcnv]
  · have hcd : (u ++ ',' :: v).contains '.' = false := by
      apply contains_of_not_mem
      intro hc
      rcases List.mem_append.mp hc with h | h
      · exact hdot h
      · exact hdnv h
    have hfu : u.filter Char.isDigit = u := by
      apply List.filter_eq_self.mpr
      intro c hc
      rcases hu c hc with h | rfl
      · exact h
      · exact absurd hc hdot
    unfold sepNormalize
    rw [hcont, hcd]
    simp only [Bool.and_false, Bool.false_eq_true, if_false, if_pos hcont]
    unfold commaToDot
    rw [List.map_append, List.map_cons]
    have e1 : (if (',' == ',') = true then '.' else ',') = '.' := rfl
    rw [e1, ← commaToDot, ← commaToDot, commaToDot_id u hcnu, commaToDot_id v hcnv, hfu]
    simp

theorem sepNormalize_dot_last (u v : Str) (hu : ∀ c ∈ u, c.isDigit = true ∨ c = ',')
    (hv : ∀ c ∈ v, c.isDigit = true) :
    sepNormalize (u ++ '.' :: v) = u.filter Char.isDigit ++ '.' :: v := by
  have hdnv : '.' ∉ v := dot_not_mem_digits v hv
  have hcndv : ',' ∉ '.' :: v := by
    intro hc
    rcases List.mem_cons.mp hc with h | h
    · exact absurd h (by decide)
    · exact comma_not_mem_digits v hv h
  have hcd : (u ++ '.' :: v).contains '.' = true :=
    contains_of_mem (List.mem_append_right _ (List.mem_cons_self _ _))
  have h1 : ('.' :: v).filter (fun c => c != ',') = '.' :: v :=
    List.filter_eq_self.mpr (fun c hc => by
      rcases List.mem_cons.mp hc with rfl | hcv
      · decide
      · rw [bne_iff_ne]
        exact digit_ne c (hv c hcv) ',' (by decide))
  by_cases hcm : ',' ∈ u
  · have hcont : (u ++ '.' :: v).contains ',' = true :=
      contains_of_mem (List.mem_append_left _ hcm)
    have hngt : ¬ (pyRfind ',' (u ++ '.' :: v) > pyRfind '.' (u ++ '.' :: v)) := by
      rw [pyRfind_last '.' u v hdnv, pyRfind_append_not_mem ',' u ('.' :: v) hcndv]
      have := pyRfind_lt_length ',' u
      omega
    unfold sepNormalize
    rw [hcont, hcd]
    simp only [Bool.and_self, if_neg hngt, if_true]
    rw [List.filter_append, h1, filter_comma_eq_digit u hu]
  · have hcont : (u ++ '.' :: v).contains ',' = false := by
      apply contains_of_not_mem
      intro hc
      rcases List.mem_append.mp hc with h | h
      · exact hcm h
      · exact hcndv h
    have hfu : u.filter Char.isDigit = u := by
      apply List.filter_eq_self.mpr
      intro c hc
      rcases hu c hc with h | rfl
      · exact h
      · exact absurd hc hcm
    unfold sepNormalize
    rw [hcont, hcd, hfu]
    simp
theorem sep_token_clean (u v : Str) (x : Char) (hx : x = ',' ∨ x = '.')
    (hu : ∀ c ∈ u, c.isDigit = true ∨ c = '.' ∨ c = ',')
    (hv : ∀ c ∈ v, c.isDigit = true) :
    pyStrip (u ++ x :: v) = u ++ x :: v ∧
      (u ++ x :: v).filter (fun c => c != ' ') = u ++ x :: v ∧
      (u ++ x :: v).isEmpty = false := by
  have hchar : ∀ c ∈ u ++ x :: v, c.isDigit = true ∨ c = '.' ∨ c = ',' := by
    intro c hc
    rcases List.mem_append.mp hc with h | h
    · exact hu c h
    · rcases List.mem_cons.mp h with rfl | h
      · rcases hx with rfl | rfl
        · exact Or.inr (Or.inr rfl)
        · exact Or.inr (Or.inl rfl)
      · exact Or.inl (hv c h)
  have hsp : ∀ c ∈ u ++ x :: v, isPySpace c = false := by
    intro c hc
    rcases hchar c hc with h | rfl | rfl
    · exact digit_not_space c h
    · decide
    · decide
  refine ⟨pyStrip_eq_self _ hsp, ?_, ?_⟩
  · apply List.filter_eq_self.mpr
    intro c hc
    rw [bne_iff_ne]
    rcases hchar c hc with h | rfl | rfl
    · exact digit_ne c h ' ' (by decide)
    · decide
    · decide
  · cases u with
    | nil => rfl
    | cons a t => rfl

theorem parse_decimal_comma (u v : Str) (hu : ∀ c ∈ u, c.isDigit = true ∨ c = '.')
    (hv : ∀ c ∈ v, c.isDigit = true) (hvne : v ≠ []) :
    parse_decimal (u ++ ',' :: v) =
      some (decIntVal (u.filter Char.isDigit) + decFracVal v) := by
  have hclean := sep_token_clean u v ',' (Or.inl rfl)
    (fun c hc => by
      rcases hu c hc with h | rfl
      · exact Or.inl h
      · exact Or.inr (Or.inl rfl)) hv
  unfold parse_decimal
  rw [hclean.1, hclean.2.1]
  simp only [hclean.2.2, Bool.false_eq_true, if_false]
  rw [sepNormalize_comma_last u v hu hv]
  exact pyDecimal_digits_dot _ v (fun c hc => (List.mem_filter.mp hc).2) hv hvne

theorem parse_decimal_dot (u v : Str) (hu : ∀ c ∈ u, c.isDigit = true ∨ c = ',')
    (hv : ∀ c ∈ v, c.isDigit = true) (hvne : v ≠ []) :
    parse_decimal (u ++ '.' :: v) =
      some (decIntVal (u.filter Char.isDigit) + decFracVal v) := by
  have hclean := sep_token_clean u v '.' (Or.inr rfl)
    (fun c hc => by
      rcases hu c hc with h | rfl
      · exact Or.inl h
      · exact Or.inr (Or.inr rfl)) hv
  unfold parse_decimal
  rw [hclean.1, hclean.2.1]
  simp only [hclean.2.2, Bool.false_eq_true, if_false]
  rw [sepNormalize_dot_last u v hu hv]
  exact pyDecimal_digits_dot _ v (fun c hc => (List.mem_filter.mp hc).2) hv hvne
theorem sepNormalizeValor_eq (s : Str) : sepNormalizeValor s = sepNormalize s := by
  unfold sepNormalizeValor sepNormalize
  by_cases h1 : (s.contains ',' && s.contains '.') = true
  · rw [if_pos h1, if_pos h1]
  · rw [if_neg h1, if_neg h1]
    by_cases h2 : s.contains ',' = true
    · rw [if_pos h2, if_pos h2]
      have hdot : s.contains '.' = false := by
        cases hdc : s.contains '.' with
        | false => rfl
        | true => exact absurd (by rw [h2, hdc]; rfl) h1
      congr 1
      apply List.filter_eq_self.mpr
      intro a ha
      rw [bne_iff_ne]
      intro e
      subst e
      rw [contains_of_mem ha] at hdot
      cases hdot
    · rw [if_neg h2, if_neg h2]

theorem sepNormalize_charset (s : Str)
    (h : ∀ c ∈ s, c.isDigit = true ∨ c = ',' ∨ c = '.') :
    ∀ c ∈ sepNormalize s, c.isDigit = true ∨ c = '.' := by
  intro c hc
  unfold sepNormalize at hc
  split at hc
  · split at hc
    · rcases List.mem_map.mp hc with ⟨a, ha, rfl⟩
      rcases h a (List.mem_filter.mp ha).1 with hd | rfl | rfl
      · have : (a == ',') = false := by
          rw [beq_eq_false_iff_ne]
          exact digit_ne a hd ',' (by decide)
        rw [this]
        simpa using Or.inl hd
      · simp
      · simp
    · rcases h c (List.mem_filter.mp hc).1 with hd | rfl | rfl
      · exact Or.inl hd
      · have := (List.mem_filter.mp hc).2
        simp at this
      · exact Or.inr rfl
  · split at hc
    · rcases List.mem_map.mp hc with ⟨a, ha, rfl⟩
      rcases h a ha with hd | rfl | rfl
      · have : (a == ',') = false := by
          rw [beq_eq_false_iff_ne]
          exact digit_ne a hd ',' (by decide)
        rw [this]
        simpa using Or.inl hd
      · simp
      · simp
    · next hnc =>
      rcases h c hc with hd | rfl | rfl
      · exact Or.inl hd
      · exact absurd (contains_of_mem hc) (by simpa using hnc)
      · exact Or.inr rfl

theorem parse_valor_eq_parse_decimal (s : Str) (hne : s ≠ [])
    (h : ∀ c ∈ s, c.isDigit = true ∨ c = ',' ∨ c = '.') :
    parse_valor s = parse_decimal s := by
  have hsp : ∀ c ∈ s, isPySpace c = false := by
    intro c hc
    rcases h c hc with hd | rfl | rfl
    · exact digit_not_space c hd
    · decide
    · decide
  have hstrip : pyStrip s = s := pyStrip_eq_self s hsp
  have hsq : strip_quotes s = s := by
    unfold strip_quotes
    rw [hstrip]
    rw [if_neg]
    intro hcond
    rcases hcond.2 with ⟨hh, _⟩ | ⟨hh, _⟩ <;>
    · cases s with
      | nil => exact hne rfl
      | cons a t =>
        rcases h a (List.mem_cons_self _ _) with hd | rfl | rfl <;> simp_all
  have hse : s.isEmpty = false := by
    cases s with
    | nil => exact absurd rfl hne
    | cons a t => rfl
  have hfs : s.filter (fun c => c != ' ') = s := by
    apply List.filter_eq_self.mpr
    intro c hc
    rw [bne_iff_ne]
    rcases h c hc with hd | rfl | rfl
    · exact digit_ne c hd ' ' (by decide)
    · decide
    · decide
  have hkeep : (sepNormalize s).filter keepNumChar = sepNormalize s := by
    apply List.filter_eq_self.mpr
    intro c hc
    rcases sepNormalize_charset s h c hc with hd | rfl
    · simp [keepNumChar, hd]
    · decide
  unfold parse_valor parse_decimal
  simp only [hstrip, hsq, hse, Bool.false_eq_true, if_false, hfs, sepNormalizeValor_eq, hkeep]
  by_cases hbad : sepNormalize s = [] ∨ sepNormalize s = ['.'] ∨ sepNormalize s = ['+'] ∨
      sepNormalize s = ['-'] ∨ sepNormalize s = ['+', '.'] ∨ sepNormalize s = ['-', '.']
  · rw [if_pos hbad]
    rcases hbad with hb | hb | hb | hb | hb | hb <;> rw [hb] <;> decide
  · rw [if_neg hbad]

/-- C4.  Both normalizers agree with the canonical dot form on tokens in
either separator convention: with the comma as the later separator any
dots are stripped as thousands separators and the comma becomes the
decimal point; with the dot as the later separator any commas are
stripped; and the three spellings of 1234.56 from the specification all
normalize to the same exact value. -/
theorem claim_C4 :
    (∀ u v : Str, (∀ c ∈ u, c.isDigit = true ∨ c = '.') → (∀ c ∈ v, c.isDigit = true) →
        v ≠ [] →
        parse_decimal (u ++ ',' :: v) =
            some (decIntVal (u.filter Char.isDigit) + decFracVal v) ∧
          parse_valor (u ++ ',' :: v) =
            some (decIntVal (u.filter Char.isDigit) + decFracVal v)) ∧
    (∀ u v : Str, (∀ c ∈ u, c.isDigit = true ∨ c = ',') → (∀ c ∈ v, c.isDigit = true) →
        v ≠ [] →
        parse_decimal (u ++ '.' :: v) =
            some (decIntVal (u.filter Char.isDigit) + decFracVal v) ∧
          parse_valor (u ++ '.' :: v) =
            some (decIntVal (u.filter Char.isDigit) + decFracVal v)) ∧
    (parse_decimal ("1.234,56".toList) = some ((123456 : ℚ) / 100) ∧
      parse_decimal ("1,234.56".toList) = some ((123456 : ℚ) / 100) ∧
      parse_decimal ("1234,56".toList) = some ((123456 : ℚ) / 100) ∧
      parse_decimal ("1234.56".toList) = some ((123456 : ℚ) / 100) ∧
      parse_valor ("1.234,56".toList) = some ((123456 : ℚ) / 100) ∧
      parse_valor ("1,234.56".toList) = some ((123456 : ℚ) / 100) ∧
      parse_valor ("1234,56".toList) = some ((123456 : ℚ) / 100) ∧
      parse_valor ("1234.56".toList) = some ((123456 : ℚ) / 100)) := by
  refine ⟨?_, ?_, ?_⟩
  · intro u v hu hv hvne
    have hd := parse_decimal_comma u v hu hv hvne
    refine ⟨hd, ?_⟩
    rw [parse_valor_eq_parse_decimal _ (by simp) ?_]
    · exact hd
    · intro c hc
      rcases List.mem_append.mp hc with h | h
      · rcases hu c h with h1 | rfl
        · exact Or.inl h1
        · exact Or.inr (Or.inr rfl)
      · rcases List.mem_cons.mp h with rfl | h1
        · exact Or.inr (Or.inl rfl)
        · exact Or.inl (hv c h1)
  · intro u v hu hv hvne
    have hd := parse_decimal_dot u v hu hv hvne
    refine ⟨hd, ?_⟩
    rw [parse_valor_eq_parse_decimal _ (by simp) ?_]
    · exact hd
    · intro c hc
      rcases List.mem_append.mp hc with h | h
      · rcases hu c h with h1 | rfl
        · exact Or.inl h1
        · exact Or.inr (Or.inl rfl)
      · rcases List.mem_cons.mp h with rfl | h1
        · exact Or.inr (Or.inr rfl)
        · exact Or.inl (hv c h1)
  · refine ⟨by decide, by decide, by decide, by decide, by decide, by decide, by decide,
      by decide⟩

/-- Witness for C4 at the spec's example tokens, split at the decimal
separator: `1.234` then `,` then `56`, and `1,234` then `.` then `56`. -/
theorem claim_C4_witness :
    (parse_decimal ("1.234".toList ++ ',' :: "56".toList) =
        some (decIntVal (("1.234".toList).filter Char.isDigit) + decFracVal ("56".toList)) ∧
      parse_valor ("1.234".toList ++ ',' :: "56".toList) =
        some (decIntVal (("1.234".toList).filter Char.isDigit) + decFracVal ("56".toList))) ∧
    (parse_decimal ("1,234".toList ++ '.' :: "56".toList) =
        some (decIntVal (("1,234".toList).filter Char.isDigit) + decFracVal ("56".toList)) ∧
      parse_valor ("1,234".toList ++ '.' :: "56".toList) =
        some (decIntVal (("1,234".toList).filter Char.isDigit) + decFracVal ("56".toList))) :=
  ⟨claim_C4.1 ("1.234".toList) ("56".toList) (by decide) (by decide) (by decide),
   claim_C4.2.1 ("1,234".toList) ("56".toList) (by decide) (by decide) (by decide)⟩

/-- Characters that play no role in a numeric token: not digits, signs,
separators, whitespace or quotes. -/
def strayChar (c : Char) : Bool :=
  !c.isDigit && !(c == '+') && !(c == '-') && !(c == '.') && !(c == ',') &&
    !isPySpace c && !(c == '"') && !(c == Char.ofNat 39)

/-- C6 (amended).  `parse_valor` (`gerar_csv_1802002.py`) strips residual
non-numeric characters before converting, so a digit run surrounded by
stray characters still yields the digits' value.  `parse_decimal`
(`gerar_csv.py`) performs no such stripping and returns the not-a-number
signal on stray-character tokens instead (the unamended claim fails for
it; see `claim_C6_counterexample`). -/
theorem claim_C6 (p d q : Str) (hd : d ≠ []) (hdig : ∀ c ∈ d, c.isDigit = true)
    (hp : ∀ c ∈ p, strayChar c = true) (hq : ∀ c ∈ q, strayChar c = true) :
    parse_valor (p ++ d ++ q) = some (decIntVal d) := by
  have hstray : ∀ c : Char, strayChar c = true →
      c.isDigit = false ∧ (c == '+') = false ∧ (c == '-') = false ∧ (c == '.') = false ∧
        (c == ',') = false ∧ isPySpace c = false ∧ (c == '"') = false ∧
        (c == Char.ofNat 39) = false := by
    intro c hc
    unfold strayChar at hc
    simp only [Bool.and_eq_true, Bool.not_eq_true'] at hc
    exact ⟨hc.1.1.1.1.1.1.1, hc.1.1.1.1.1.1.2, hc.1.1.1.1.1.2, hc.1.1.1.1.2, hc.1.1.1.2,
      hc.1.1.2, hc.1.2, hc.2⟩
  have hmem : ∀ c ∈ p ++ d ++ q, c.isDigit = true ∨ strayChar c = true := by
    intro c hc
    rcases List.mem_append.mp hc with h | h
    · rcases List.mem_append.mp h with h1 | h1
      · exact Or.inr (hp c h1)
      · exact Or.inl (hdig c h1)
    · exact Or.inr (hq c h)
  have hsp : ∀ c ∈ p ++ d ++ q, isPySpace c = false := by
    intro c hc
    rcases hmem c hc with h | h
    · exact digit_not_space c h
    · exact (hstray c h).2.2.2.2.2.1
  have hstrip : pyStrip (p ++ d ++ q) = p ++ d ++ q := pyStrip_eq_self _ hsp
  have htne : p ++ d ++ q ≠ [] := by
    intro e
    rcases List.append_eq_nil.mp e with ⟨e1, _⟩
    rcases List.append_eq_nil.mp e1 with ⟨_, e2⟩
    exact hd e2
  have hsq : strip_quotes (p ++ d ++ q) = p ++ d ++ q := by
    unfold strip_quotes
    rw [hstrip, if_neg]
    intro hcond
    have hhead : ∀ c : Char, (p ++ d ++ q).head? = some c → c ∈ p ++ d ++ q := by
      intro c hc
      cases hl : p ++ d ++ q with
      | nil => rw [hl] at hc; cases hc
      | cons a t =>
        rw [hl] at hc
        cases hc
        exact List.mem_cons_self _ _
    rcases hcond.2 with ⟨hh, _⟩ | ⟨hh, _⟩ <;>
    · have hm := hhead _ hh
      rcases hmem _ hm with hdg | hst
      · exact absurd hdg (by decide)
      · first
        | exact absurd (hstray _ hst).2.2.2.2.2.2.1 (by decide)
        | exact absurd (hstray _ hst).2.2.2.2.2.2.2 (by decide)
  have hse : (p ++ d ++ q).isEmpty = false := by
    cases hl : p ++ d ++ q with
    | nil => exact absurd hl htne
    | cons a t => rfl
  have hfs : (p ++ d ++ q).filter (fun c => c != ' ') = p ++ d ++ q := by
    apply List.filter_eq_self.mpr
    intro c hc
    rw [bne_iff_ne]
    intro e
    subst e
    exact absurd (hsp ' ' hc) (by decide)
  have hnc : (p ++ d ++ q).contains ',' = false := by
    apply contains_of_not_mem
    intro hc
    rcases hmem ',' hc with h | h
    · exact absurd h (by decide)
    · exact absurd (hstray ',' h).2.2.2.2.1 (by decide)
  have hsn : sepNormalize (p ++ d ++ q) = p ++ d ++ q := by
    unfold sepNormalize
    rw [hnc]
    simp
  have hfilter : (p ++ d ++ q).filter keepNumChar = d := by
    rw [List.filter_append, List.filter_append]
    have hpf : p.filter keepNumChar = [] := by
      apply List.filter_eq_nil_iff.mpr
      intro c hc
      have hs := hstray c (hp c hc)
      simp [keepNumChar, hs.1, hs.2.1, hs.2.2.1, hs.2.2.2.1]
    have hqf : q.filter keepNumChar = [] := by
      apply List.filter_eq_nil_iff.mpr
      intro c hc
      have hs := hstray c (hq c hc)
      simp [keepNumChar, hs.1, hs.2.1, hs.2.2.1, hs.2.2.2.1]
    have hdf : d.filter keepNumChar = d := by
      apply List.filter_eq_self.mpr
      intro c hc
      simp [keepNumChar, hdig c hc]
    rw [hpf, hqf, hdf]
    simp
  have hnbad : ¬ (d = [] ∨ d = ['.'] ∨ d = ['+'] ∨ d = ['-'] ∨ d = ['+', '.'] ∨
      d = ['-', '.']) := by
    intro hb
    rcases hb with hb | hb | hb | hb | hb | hb
    · exact hd hb
    · exact absurd (hdig '.' (hb ▸ List.mem_cons_self _ _)) (by decide)
    · exact absurd (hdig '+' (hb ▸ List.mem_cons_self _ _)) (by decide)
    · exact absurd (hdig '-' (hb ▸ List.mem_cons_self _ _)) (by decide)
    · exact absurd (hdig '+' (hb ▸ List.mem_cons_self _ _)) (by decide)
    · exact absurd (hdig '-' (hb ▸ List.mem_cons_self _ _)) (by decide)
  unfold parse_valor
  simp only [hstrip, hsq, hse, Bool.false_eq_true, if_false, hfs, sepNormalizeValor_eq, hsn,
    hfilter, if_neg hnbad]
  exact pyDecimal_digits d hdig hd

/-- Witness for C6: the token `R$123!` parsed by `parse_valor` yields the
value of its digit run 123. -/
theorem claim_C6_witness :
    parse_valor ("R$".toList ++ "123".toList ++ "!".toList) = some (decIntVal ("123".toList)) :=
  claim_C6 ("R$".toList) ("123".toList) ("!".toList) (by decide) (by decide) (by decide)
    (by decide)

/-- Counterexample to C6 as stated: `parse_decimal` does not strip stray
characters, so the token `R$12` yields the not-a-number signal there, while
`parse_valor` returns 12 for the same token. -/
theorem claim_C6_counterexample :
    parse_decimal ("R$12".toList) = none ∧ parse_valor ("R$12".toList) = some 12 := by
  constructor <;> decide
